import Mathlib

/-
Verification of the FindRita cat-detection pipeline: the detection filter
(filter_cat_detections), the temporal tracker, the presence debouncer, the
batch orchestration counters, and the video-file enumeration, embedded from
src/yolo_stream.py, src/yolo_video.py and src/yolo_cats.py.

Machine floats of the Python code are modelled as rationals; wall-clock
timestamps as rationals (seconds).
-/

/-- One raw detection as the detector reports it: class id, confidence and an
axis-aligned box (x1, y1, x2, y2) in pixel coordinates. -/
structure Box where
  cls : ℤ
  conf : ℚ
  x1 : ℚ
  y1 : ℚ
  x2 : ℚ
  y2 : ℚ
  deriving DecidableEq, Repr

def Box.width (b : Box) : ℚ := b.x2 - b.x1

def Box.height (b : Box) : ℚ := b.y2 - b.y1

def Box.aspect (b : Box) : ℚ := b.width / b.height

/-- Shallow embedding of `filter_cat_detections` (src/yolo_stream.py lines 8-51,
src/yolo_video.py lines 11-54; the two copies are identical).  The checks run in
source order: class, size, aspect ratio, confidence, each `continue`-ing to the
next box on failure.  In Python the expression `w / h` raises ZeroDivisionError
when `h == 0`, aborting the whole call; this is modelled as `none`. -/
def filter_cat_detections (boxes : List Box)
    (min_conf min_size min_aspect max_aspect : ℚ) : Option (List Box) :=
  match boxes with
  | [] => some []
  | b :: rest =>
    if b.cls ≠ 15 then
      filter_cat_detections rest min_conf min_size min_aspect max_aspect
    else if b.width < min_size ∨ b.height < min_size then
      filter_cat_detections rest min_conf min_size min_aspect max_aspect
    else if b.height = 0 then
      none
    else if b.aspect < min_aspect ∨ b.aspect > max_aspect then
      filter_cat_detections rest min_conf min_size min_aspect max_aspect
    else if b.conf < min_conf then
      filter_cat_detections rest min_conf min_size min_aspect max_aspect
    else
      (filter_cat_detections rest min_conf min_size min_aspect max_aspect).map
        (fun l => b :: l)

/-- The four DetectionFilter predicates as the spec states them (spec section 4.1):
target class 15, confidence, width and height at least min_size, aspect ratio
within the inclusive bounds. -/
def trustworthy (min_conf min_size min_aspect max_aspect : ℚ) (b : Box) : Prop :=
  b.cls = 15 ∧ min_conf ≤ b.conf ∧ min_size ≤ b.width ∧ min_size ≤ b.height ∧
    min_aspect ≤ b.aspect ∧ b.aspect ≤ max_aspect

instance (mc ms ma mA : ℚ) (b : Box) : Decidable (trustworthy mc ms ma mA b) := by
  unfold trustworthy
  exact inferInstance

/-- Core lemma: for positive min_size the filter never reaches the division and
returns exactly the order-preserving sublist of boxes passing all four predicates. -/
theorem filter_cat_detections_eq_filter (boxes : List Box) (mc ms ma mA : ℚ)
    (hms : 0 < ms) :
    filter_cat_detections boxes mc ms ma mA =
      some (boxes.filter (fun b => decide (trustworthy mc ms ma mA b))) := by
  induction boxes with
  | nil => rfl
  | cons b rest ih =>
    simp only [filter_cat_detections]
    split_ifs with h1 h2 h3 h4 h5
    · have hnt : ¬ trustworthy mc ms ma mA b := fun ht => h1 ht.1
      simp [ih, List.filter_cons, hnt]
    · have hnt : ¬ trustworthy mc ms ma mA b := by
        rintro ⟨-, -, hw, hh, -, -⟩
        rcases h2 with h2 | h2
        · exact absurd hw (not_le.mpr h2)
        · exact absurd hh (not_le.mpr h2)
      simp [ih, List.filter_cons, hnt]
    · push_neg at h2
      exact absurd h3 (by have := h2.2; intro h0; rw [h0] at this; exact absurd hms (not_lt.mpr this))
    · have hnt : ¬ trustworthy mc ms ma mA b := by
        rintro ⟨-, -, -, -, ha1, ha2⟩
        rcases h4 with h4 | h4
        · exact absurd ha1 (not_le.mpr h4)
        · exact absurd ha2 (not_le.mpr h4)
      simp [ih, List.filter_cons, hnt]
    · have hnt : ¬ trustworthy mc ms ma mA b := fun ht => absurd ht.2.1 (not_le.mpr h5)
      simp [ih, List.filter_cons, hnt]
    · push_neg at h2 h4
      have ht : trustworthy mc ms ma mA b :=
        ⟨not_not.mp h1, not_lt.mp h5, h2.1, h2.2, h4.1, h4.2⟩
      simp [ih, List.filter_cons, ht]

/-- Scenario boxes from the spec's test section: a plausible cat detection and a
large confident non-cat detection. -/
def catBox : Box := ⟨15, 9/10, 0, 0, 100, 100⟩

def dogBox : Box := ⟨16, 99/100, 0, 0, 200, 200⟩

/-- A zero-height class-15 detection: the degenerate box of claim C10. -/
def zeroHeightBox : Box := ⟨15, 9/10, 0, 0, 100, 0⟩

/-- C1: for every input sequence and parameters with positive min_size,
filter_cat_detections returns exactly the subsequence, in input order, of
detections with class 15, confidence at least min_conf, width and height at
least min_size, and aspect ratio within [min_aspect, max_aspect], every bound
inclusive. -/
theorem filter_is_trustworthy_subsequence (boxes : List Box) (mc ms ma mA : ℚ)
    (hms : 0 < ms) :
    filter_cat_detections boxes mc ms ma mA =
      some (boxes.filter (fun b => decide (trustworthy mc ms ma mA b))) :=
  filter_cat_detections_eq_filter boxes mc ms ma mA hms

/-- Witness for C1 at the spec's scenario input: the class-15 box passes, the
class-16 box is excluded. -/
theorem filter_is_trustworthy_subsequence_case :
    filter_cat_detections [catBox, dogBox] 0.85 50 0.5 2 =
      some (List.filter (fun b => decide (trustworthy 0.85 50 0.5 2 b)) [catBox, dogBox]) :=
  filter_is_trustworthy_subsequence [catBox, dogBox] 0.85 50 0.5 2 (by norm_num)

/-- C10: for positive min_size the filter is total: the size check excludes any
box with height below min_size (in particular height zero) before the aspect
ratio is computed, so the Python-level ZeroDivisionError is unreachable. -/
theorem filter_no_division_by_zero (boxes : List Box) (mc ms ma mA : ℚ)
    (hms : 0 < ms) :
    (filter_cat_detections boxes mc ms ma mA).isSome = true := by
  rw [filter_cat_detections_eq_filter boxes mc ms ma mA hms]
  rfl

/-- Witness for C10 on a zero-height box: no division by zero occurs. -/
theorem filter_no_division_by_zero_case :
    (filter_cat_detections [zeroHeightBox] 0.85 50 0.5 2).isSome = true :=
  filter_no_division_by_zero [zeroHeightBox] 0.85 50 0.5 2 (by norm_num)

/- Per-mode filtering and tracking constants of the live-stream mode
(src/yolo_stream.py lines 162-177). -/
namespace yolo_stream

def FILTER_MIN_CONF : ℚ := 0.85

def FILTER_MIN_SIZE : ℚ := 50

def FILTER_MIN_ASPECT : ℚ := 0.5

def FILTER_MAX_ASPECT : ℚ := 2.0

def MAX_FRAMES_WITHOUT_DETECTION : ℕ := 30

end yolo_stream

/- Per-mode filtering and tracking constants of the video batch mode
(src/yolo_video.py lines 115-160). -/
namespace yolo_video

def FILTER_MIN_CONF : ℚ := 0.85

def FILTER_MIN_SIZE : ℚ := 50

def FILTER_MIN_ASPECT : ℚ := 0.5

def FILTER_MAX_ASPECT : ℚ := 2.0

def MAX_FRAMES_WITHOUT_DETECTION : ℕ := 60

end yolo_video

/-- One box drawn on a frame: `tracked = false` for the fresh "Cat: conf"
annotations of the detection branch, `tracked = true` for the held-box
annotation of the tracking branch. -/
structure Annot where
  tracked : Bool
  box : Box
  conf : ℚ
  deriving DecidableEq, Repr

/-- Tracker state: last_valid_box, last_valid_conf, frames_since_last_detection
(src/yolo_stream.py lines 173-177, src/yolo_video.py lines 156-160). -/
structure TrackState where
  last_valid_box : Option Box
  last_valid_conf : ℚ
  counter : ℕ
  deriving DecidableEq, Repr

/-- Fresh tracker state at the start of a stream or video session. -/
def initTrack : TrackState := ⟨none, 0, 0⟩

/-- One frame of the temporal tracker, fed the already-filtered detections
(src/yolo_stream.py lines 216-250, src/yolo_video.py lines 190-224).  With at
least one filtered detection the state re-arms on the first box and one fresh
annotation is drawn per filtered box; with none and a held box the counter is
incremented and the held box is drawn iff the counter stays within the budget.
The held box is never cleared. -/
def trackStep (budget : ℕ) (s : TrackState) (filtered : List Box) :
    TrackState × List Annot :=
  match filtered with
  | [] =>
    match s.last_valid_box with
    | none => (s, [])
    | some b =>
      if s.counter + 1 ≤ budget then
        (⟨some b, s.last_valid_conf, s.counter + 1⟩, [⟨true, b, s.last_valid_conf⟩])
      else
        (⟨some b, s.last_valid_conf, s.counter + 1⟩, [])
  | b :: _ =>
    (⟨some b, b.conf, 0⟩, filtered.map (fun d => ⟨false, d, d.conf⟩))

/-- The tracker run over a sequence of frames (each frame given as its filtered
detection list): final state and the per-frame annotation lists. -/
def trackRun (budget : ℕ) (s : TrackState) :
    List (List Box) → TrackState × List (List Annot)
  | [] => (s, [])
  | f :: rest =>
    let p := trackStep budget s f
    let r := trackRun budget p.1 rest
    (r.1, p.2 :: r.2)

/-- Emissions of a holding tracker over a run of empty frames: the held box for
as long as the counter stays within the budget, then nothing. -/
theorem trackRun_gap (B : ℕ) (b : Box) (c : ℚ) (m : ℕ) :
    ∀ k : ℕ, (trackRun B ⟨some b, c, k⟩ (List.replicate m [])).2 =
      List.replicate (min m (B - k)) [Annot.mk true b c] ++
        List.replicate (m - (B - k)) [] := by
  induction m with
  | zero => intro k; simp [trackRun]
  | succ m ih =>
    intro k
    rw [List.replicate_succ]
    by_cases hk : k + 1 ≤ B
    · have e1 : min (m + 1) (B - k) = min m (B - (k + 1)) + 1 := by omega
      have e2 : (m + 1) - (B - k) = m - (B - (k + 1)) := by omega
      simp only [trackRun, trackStep, if_pos hk, ih (k + 1), e1, e2,
        List.replicate_succ, List.cons_append]
    · have e1 : min (m + 1) (B - k) = 0 := by omega
      have e2 : min m (B - (k + 1)) = 0 := by omega
      have e3 : (m + 1) - (B - k) = m + 1 := by omega
      have e4 : m - (B - (k + 1)) = m := by omega
      simp only [trackRun, trackStep, if_neg hk, ih (k + 1), e1, e2, e3, e4,
        List.replicate_zero, List.nil_append, List.replicate_succ]

/-- C2: with hold budget B (30 in the live mode, 60 in the video mode), a
trustworthy detection on frame 0 followed by N empty frames (N > B) yields the
fresh annotation on frame 0, the held box as a tracked annotation on every
frame 1..B, and nothing on frames B+1..N. -/
theorem tracker_hold_budget_window (B N : ℕ) (b : Box) (hBN : B < N) :
    yolo_stream.MAX_FRAMES_WITHOUT_DETECTION = 30 ∧
    yolo_video.MAX_FRAMES_WITHOUT_DETECTION = 60 ∧
    (trackRun B initTrack ([b] :: List.replicate N [])).2 =
      [Annot.mk false b b.conf] ::
        (List.replicate B [Annot.mk true b b.conf] ++
          List.replicate (N - B) []) := by
  refine ⟨rfl, rfl, ?_⟩
  have e1 : min N (B - 0) = B := by omega
  have e2 : N - (B - 0) = N - B := by omega
  simp only [trackRun, trackStep, initTrack, List.map, trackRun_gap B b b.conf N 0, e1, e2]

/-- Witness for C2 at the spec's scenario: budget 2, one detection then four
empty frames; tracked on frames 1 and 2, nothing on frames 3 and 4. -/
theorem tracker_hold_budget_window_case :
    yolo_stream.MAX_FRAMES_WITHOUT_DETECTION = 30 ∧
    yolo_video.MAX_FRAMES_WITHOUT_DETECTION = 60 ∧
    (trackRun 2 initTrack ([catBox] :: List.replicate 4 [])).2 =
      [Annot.mk false catBox catBox.conf] ::
        (List.replicate 2 [Annot.mk true catBox catBox.conf] ++
          List.replicate (4 - 2) []) :=
  tracker_hold_budget_window 2 4 catBox (by decide)

/-- Counterexample to C3: budget 2, a detection then three empty frames.  On the
last frame the counter (3) exceeds the budget and nothing is emitted, but
last_valid_box still holds the stale box — the code only stops drawing, it
never clears the held state (src/yolo_stream.py lines 242-250 and
src/yolo_video.py lines 216-224 have no reset of last_valid_box). -/
theorem tracker_expiry_keeps_held_box_cex :
    2 < (trackRun 2 initTrack [[catBox], [], [], []]).1.counter ∧
    (trackRun 2 initTrack [[catBox], [], [], []]).2 =
      [[Annot.mk false catBox catBox.conf], [Annot.mk true catBox catBox.conf],
        [Annot.mk true catBox catBox.conf], []] ∧
    (trackRun 2 initTrack [[catBox], [], [], []]).1.last_valid_box = some catBox ∧
    (trackRun 2 initTrack [[catBox], [], [], []]).1.last_valid_box ≠ none := by
  refine ⟨?_, ?_, ?_, ?_⟩ <;> simp [trackRun, trackStep, initTrack]

/-- C3 amended: when the counter exceeds the hold budget on a frame with zero
trustworthy detections, the tracker emits nothing, but it does not transition
to an empty Idle state: the held box and confidence are retained unchanged and
only the counter keeps advancing. -/
theorem tracker_expiry_retains_held_box (B : ℕ) (s : TrackState) (b : Box)
    (hb : s.last_valid_box = some b) (hc : B < s.counter + 1) :
    (trackStep B s []).2 = [] ∧
    (trackStep B s []).1.last_valid_box = some b ∧
    (trackStep B s []).1.last_valid_conf = s.last_valid_conf ∧
    (trackStep B s []).1.counter = s.counter + 1 := by
  obtain ⟨lb, lc, k⟩ := s
  simp only [TrackState.last_valid_box] at hb
  subst hb
  simp only [TrackState.counter] at hc
  simp [trackStep, Nat.not_le.mpr hc]

/-- Witness for the amended C3: held box, counter already 5, budget 2. -/
theorem tracker_expiry_retains_held_box_case :
    (trackStep 2 ⟨some catBox, catBox.conf, 5⟩ []).2 = [] ∧
    (trackStep 2 ⟨some catBox, catBox.conf, 5⟩ []).1.last_valid_box = some catBox ∧
    (trackStep 2 ⟨some catBox, catBox.conf, 5⟩ []).1.last_valid_conf = catBox.conf ∧
    (trackStep 2 ⟨some catBox, catBox.conf, 5⟩ []).1.counter = 5 + 1 :=
  tracker_expiry_retains_held_box 2 ⟨some catBox, catBox.conf, 5⟩ catBox rfl (by decide)

/-- A second trustworthy detection, used to exercise the multi-box rendering
path: class 15, confident, 60 by 60 pixels. -/
def catBoxSmall : Box := ⟨15, 19/20, 10, 10, 70, 70⟩

/-- Counterexample to C4: a frame whose filtered detections are two trustworthy
boxes is rendered with two fresh annotations — the detection branch loops over
all filtered boxes (src/yolo_stream.py lines 227-239, src/yolo_video.py lines
201-213), so more than one box is drawn in one frame. -/
theorem tracker_renders_two_boxes_cex :
    filter_cat_detections [catBox, catBoxSmall] (17/20) 50 (1/2) 2 =
      some [catBox, catBoxSmall] ∧
    1 < ((trackStep 30 initTrack [catBox, catBoxSmall]).2).length := by
  constructor
  · norm_num [filter_cat_detections, catBox, catBoxSmall,
      Box.width, Box.height, Box.aspect]
  · norm_num [trackStep, initTrack]

/-- C4 amended: on a frame with no trustworthy detections the tracker renders at
most one box (the held box or nothing); on a frame with n ≥ 1 trustworthy
detections it renders one fresh annotation per detection, so several boxes can
be rendered when the filter returns several detections. -/
theorem tracker_render_count (B : ℕ) (s : TrackState) (b : Box) (rest : List Box) :
    ((trackStep B s []).2).length ≤ 1 ∧
    ((trackStep B s (b :: rest)).2).length = rest.length + 1 := by
  constructor
  · match s with
    | ⟨none, lc, k⟩ => simp [trackStep]
    | ⟨some hb, lc, k⟩ =>
      by_cases hk : k + 1 ≤ B <;> simp [trackStep, hk]
  · simp [trackStep]

/-- Modelled from the code of `process_images` (src/yolo_cats.py lines 79-107):
the detector is invoked with conf=0.25 and save=True and its own annotated
artifact is copied to result/ unchanged — `filter_cat_detections` is never
called in this mode, so the detections reflected in the image-mode result are
the raw detector output. -/
def imageResultDetections (raw : List Box) : List Box := raw

/-- Detections drawn fresh on one video frame (src/yolo_video.py lines 175-213):
the raw detections pass `filter_cat_detections` with the video-mode constants
before any box is drawn. -/
def videoFrameDetections (raw : List Box) : Option (List Box) :=
  filter_cat_detections raw yolo_video.FILTER_MIN_CONF yolo_video.FILTER_MIN_SIZE
    yolo_video.FILTER_MIN_ASPECT yolo_video.FILTER_MAX_ASPECT

/-- Counterexample to C5: a large, confident class-16 detection appears in the
image-mode result unchanged although every DetectionFilter would exclude it —
process_images never applies the class/confidence/size/aspect predicates. -/
theorem image_mode_unfiltered_cex :
    imageResultDetections [dogBox] = [dogBox] ∧
    filter_cat_detections [dogBox] (17/20) 50 (1/2) 2 = some [] := by
  constructor
  · rfl
  · norm_num [filter_cat_detections, dogBox]

/-- C5 amended: the video batch mode passes every frame's raw detections through
the DetectionFilter predicates before producing its result, but the image batch
mode does not: its result reflects the detector's raw output unfiltered. -/
theorem video_filters_image_mode_does_not (raw : List Box) :
    videoFrameDetections raw =
      some (raw.filter (fun b => decide (trustworthy yolo_video.FILTER_MIN_CONF
        yolo_video.FILTER_MIN_SIZE yolo_video.FILTER_MIN_ASPECT
        yolo_video.FILTER_MAX_ASPECT b))) ∧
    imageResultDetections raw = raw := by
  constructor
  · exact filter_cat_detections_eq_filter raw _ _ _ _ (by norm_num [yolo_video.FILTER_MIN_SIZE])
  · rfl

/-- Presence state of the live mode: cat_detected and detection_time
(src/yolo_stream.py lines 180-181); time is rational seconds. -/
structure PresenceState where
  cat_detected : Bool
  detection_time : ℚ
  deriving DecidableEq, Repr

/-- One frame of the presence debouncer (src/yolo_stream.py lines 252-257): a
frame with a trustworthy detection sets the flag and records now; otherwise the
flag is cleared exactly when more than 2.0 seconds have passed since the last
detection, and nothing changes otherwise. -/
def presenceStep (s : PresenceState) (has_valid_detection : Bool) (now : ℚ) :
    PresenceState :=
  if has_valid_detection then ⟨true, now⟩
  else if now - s.detection_time > 2 then ⟨false, s.detection_time⟩
  else s

/-- C6: a detection frame sets cat_detected and records now as the last-seen
time; an empty frame never changes the last-seen time, and after it
cat_detected is false exactly when the gap exceeded 2.0 seconds or the flag was
already false — so the flag stays true for any gap of at most 2.0 seconds and
falls once the gap is exceeded. -/
theorem presence_debounce_step (s : PresenceState) (now : ℚ) :
    presenceStep s true now = ⟨true, now⟩ ∧
    (presenceStep s false now).detection_time = s.detection_time ∧
    ((presenceStep s false now).cat_detected = false ↔
      (2 < now - s.detection_time ∨ s.cat_detected = false)) := by
  refine ⟨rfl, ?_, ?_⟩ <;> by_cases h : 2 < now - s.detection_time <;>
    simp [presenceStep, h]

/-- Per-run counters success_count / error_count of the batch modes
(src/yolo_cats.py lines 57-59, src/yolo_video.py lines 108-110). -/
structure RunSummary where
  succeeded : ℕ
  failed : ℕ
  deriving DecidableEq, Repr

/-- What happens once an input reaches the body of its try block: the processing
completes (counted as success) or some exception is raised and caught by one of
the except arms (counted as failure). -/
inductive ItemOutcome where
  | ok : ItemOutcome
  | raises : ItemOutcome
  deriving DecidableEq, Repr

/-- One batch input: whether os.access(path, os.R_OK) passes, and how its
processing ends if the detector is reached. -/
structure BatchItem where
  readable : Bool
  outcome : ItemOutcome
  deriving DecidableEq, Repr

/-- One iteration of the batch loop (src/yolo_cats.py lines 61-121,
src/yolo_video.py lines 122-255): a failed access check records one failure and
continues without invoking the detector; otherwise the detector runs and the
item ends in exactly one of the two counters.  The returned flag records
whether the detector was invoked for this item. -/
def processOne (s : RunSummary) (it : BatchItem) : RunSummary × Bool :=
  match it.readable with
  | false => (⟨s.succeeded, s.failed + 1⟩, false)
  | true =>
    match it.outcome with
    | ItemOutcome.ok => (⟨s.succeeded + 1, s.failed⟩, true)
    | ItemOutcome.raises => (⟨s.succeeded, s.failed + 1⟩, true)

/-- The whole batch loop: every enumerated input is processed in turn (a failure
of one item never aborts the loop — each except arm continues).  Returns the
final counters and the items for which the detector was invoked. -/
def runBatch (s : RunSummary) : List BatchItem → RunSummary × List BatchItem
  | [] => (s, [])
  | it :: rest =>
    let p := processOne s it
    let r := runBatch p.1 rest
    (r.1, (if p.2 then [it] else []) ++ r.2)

/-- Counters over a batch run from an arbitrary starting summary. -/
theorem runBatch_counts (items : List BatchItem) : ∀ s : RunSummary,
    (runBatch s items).1.succeeded + (runBatch s items).1.failed =
      s.succeeded + s.failed + items.length ∧
    s.failed + items.countP (fun it => !it.readable) ≤ (runBatch s items).1.failed ∧
    ∀ it ∈ (runBatch s items).2, it.readable = true := by
  induction items with
  | nil => intro s; simp [runBatch]
  | cons it rest ih =>
    intro s
    cases hr : it.readable with
    | false =>
      obtain ⟨h1, h2, h3⟩ := ih ⟨s.succeeded, s.failed + 1⟩
      have h1x : (runBatch ⟨s.succeeded, s.failed + 1⟩ rest).1.succeeded +
          (runBatch ⟨s.succeeded, s.failed + 1⟩ rest).1.failed =
          s.succeeded + (s.failed + 1) + rest.length := h1
      have h2x : s.failed + 1 + rest.countP (fun x => !x.readable) ≤
          (runBatch ⟨s.succeeded, s.failed + 1⟩ rest).1.failed := h2
      clear h1 h2
      refine ⟨?_, ?_, ?_⟩
      · simp only [runBatch, processOne, hr, List.length_cons]
        omega
      · simp only [runBatch, processOne, hr, List.countP_cons]
        simp
        omega
      · simp only [runBatch, processOne, hr]
        simp only [Bool.false_eq_true, if_false, List.nil_append]
        exact h3
    | true =>
      cases ho : it.outcome with
      | ok =>
        obtain ⟨h1, h2, h3⟩ := ih ⟨s.succeeded + 1, s.failed⟩
        have h1x : (runBatch ⟨s.succeeded + 1, s.failed⟩ rest).1.succeeded +
            (runBatch ⟨s.succeeded + 1, s.failed⟩ rest).1.failed =
            s.succeeded + 1 + s.failed + rest.length := h1
        have h2x : s.failed + rest.countP (fun x => !x.readable) ≤
            (runBatch ⟨s.succeeded + 1, s.failed⟩ rest).1.failed := h2
        clear h1 h2
        refine ⟨?_, ?_, ?_⟩
        · simp only [runBatch, processOne, hr, ho, List.length_cons]
          omega
        · simp only [runBatch, processOne, hr, ho, List.countP_cons]
          simp
          omega
        · simp only [runBatch, processOne, hr, ho, if_pos rfl,
            List.singleton_append]
          intro x hx
          rcases List.mem_cons.mp hx with h | h
          · rw [h]; exact hr
          · exact h3 x h
      | raises =>
        obtain ⟨h1, h2, h3⟩ := ih ⟨s.succeeded, s.failed + 1⟩
        have h1x : (runBatch ⟨s.succeeded, s.failed + 1⟩ rest).1.succeeded +
            (runBatch ⟨s.succeeded, s.failed + 1⟩ rest).1.failed =
            s.succeeded + (s.failed + 1) + rest.length := h1
        have h2x : s.failed + 1 + rest.countP (fun x => !x.readable) ≤
            (runBatch ⟨s.succeeded, s.failed + 1⟩ rest).1.failed := h2
        clear h1 h2
        refine ⟨?_, ?_, ?_⟩
        · simp only [runBatch, processOne, hr, ho, List.length_cons]
          omega
        · simp only [runBatch, processOne, hr, ho, List.countP_cons]
          simp
          omega
        · simp only [runBatch, processOne, hr, ho, if_pos rfl,
            List.singleton_append]
          intro x hx
          rcases List.mem_cons.mp hx with h | h
          · rw [h]; exact hr
          · exact h3 x h

/-- C7: over any enumerated inputs, starting from zeroed counters, each input
lands in exactly one counter so succeeded + failed equals the number of inputs;
the failures are at least the K inputs whose access check fails; and the
detector is invoked only for inputs whose access check passes — no failure
aborts the remaining inputs. -/
theorem batch_counters_partition (items : List BatchItem) :
    (runBatch ⟨0, 0⟩ items).1.succeeded + (runBatch ⟨0, 0⟩ items).1.failed =
      items.length ∧
    items.countP (fun it => !it.readable) ≤ (runBatch ⟨0, 0⟩ items).1.failed ∧
    ∀ it ∈ (runBatch ⟨0, 0⟩ items).2, it.readable = true := by
  have h := runBatch_counts items ⟨0, 0⟩
  simpa using h
/-- Resource bookkeeping at the end of a live-stream run: whether cap.release()
and writer.release() were executed, and whether an exception escaped the frame
loop. -/
structure StreamExit where
  capReleased : Bool
  writerReleased : Bool
  raised : Bool
  deriving DecidableEq, Repr

/-- Whether the frame loop of `run_webcam_stream` runs to completion: each
entry says whether processing that frame raises an exception (e.g. the model
call on line 199 or writer.write on line 281 throwing); the first raising frame
aborts the loop. -/
def streamLoopCompletes : List Bool → Bool
  | [] => true
  | raises :: rest => if raises then false else streamLoopCompletes rest

/-- Exit-path model of `run_webcam_stream` (src/yolo_stream.py lines 189-321):
cap.release() and writer.release() are the straight-line statements after the
while loop (lines 307-310), with no try/finally around the loop, and `main`
(lines 357-379) catches the escaping exception without access to the local
handles.  So the handles are released exactly when the loop completes without
an exception. -/
def run_webcam_stream (frameRaises : List Bool) : StreamExit :=
  if streamLoopCompletes frameRaises then ⟨true, true, false⟩
  else ⟨false, false, true⟩

/-- C9 evaluated at the failing input: a run whose first frame raises terminates
with the exception propagated and neither handle released — the release lines
run only on the fall-through path after the loop, contradicting the claim (and
spec section 5) that handles are released on every exit path. -/
theorem stream_leak_on_frame_exception :
    run_webcam_stream [true] = ⟨false, false, true⟩ ∧
    (run_webcam_stream [true]).capReleased = false ∧
    (run_webcam_stream [true]).writerReleased = false ∧
    run_webcam_stream [] = ⟨true, true, false⟩ := by
  refine ⟨rfl, rfl, rfl, rfl⟩

/-- The fixed extension patterns of the video batch mode
(src/yolo_video.py line 80), all lowercase. -/
def video_extensions : List String := [".mov", ".mp4", ".avi", ".mkv"]

/-- Whether dataset_dir.glob("*" + ext) matches a file name: a case-insensitive
suffix match (the repository's paths are Windows-style, where glob matching is
case-insensitive; the extensions themselves are lowercase). -/
def matchesExt (f ext : String) : Bool := f.toLower.endsWith ext

/-- The de-duplication loop body (src/yolo_video.py lines 84-90): a candidate
whose lowercased name was already seen is skipped, otherwise it is kept and its
lowercased name recorded. -/
def dedupLower (seen : List String) : List String → List String
  | [] => []
  | f :: rest =>
    if f.toLower ∈ seen then dedupLower seen rest
    else f :: dedupLower (f.toLower :: seen) rest

/-- Enumeration of the video files to process (src/yolo_video.py lines 79-91):
for each extension pattern in order, each matching file of the input directory
is considered, and the collected list is de-duplicated by lowercased name. -/
def videoFilesToProcess (files : List String) : List String :=
  dedupLower [] (video_extensions.flatMap (fun e => files.filter (fun f => matchesExt f e)))

/-- Everything kept by the de-duplication comes from the candidate list and has
a lowercased name outside the seen set. -/
theorem mem_dedupLower (l : List String) : ∀ seen g, g ∈ dedupLower seen l →
    g ∈ l ∧ g.toLower ∉ seen := by
  induction l with
  | nil => intro seen g hg; simp [dedupLower] at hg
  | cons f rest ih =>
    intro seen g hg
    by_cases hf : f.toLower ∈ seen
    · rw [dedupLower, if_pos hf] at hg
      obtain ⟨h1, h2⟩ := ih seen g hg
      exact ⟨List.mem_cons_of_mem f h1, h2⟩
    · rw [dedupLower, if_neg hf] at hg
      rcases List.mem_cons.mp hg with h | h
      · rw [h]; exact ⟨List.mem_cons_self f rest, hf⟩
      · obtain ⟨h1, h2⟩ := ih (f.toLower :: seen) g h
        exact ⟨List.mem_cons_of_mem f h1, fun hs => h2 (List.mem_cons_of_mem _ hs)⟩

/-- The kept list never contains two entries with the same lowercased name. -/
theorem dedupLower_pairwise (l : List String) : ∀ seen,
    (dedupLower seen l).Pairwise (fun a b => a.toLower ≠ b.toLower) := by
  induction l with
  | nil => intro seen; simp [dedupLower]
  | cons f rest ih =>
    intro seen
    by_cases hf : f.toLower ∈ seen
    · rw [dedupLower, if_pos hf]; exact ih seen
    · rw [dedupLower, if_neg hf]
      refine List.Pairwise.cons ?_ (ih (f.toLower :: seen))
      intro b hb
      have h2 := (mem_dedupLower rest (f.toLower :: seen) b hb).2
      exact fun he => h2 (by rw [← he]; exact List.mem_cons_self _ _)

/-- Every candidate whose lowercased name is not yet seen is represented in the
kept list by exactly its first occurrence with that lowercased name. -/
theorem dedupLower_covers (l : List String) : ∀ seen f, f ∈ l →
    f.toLower ∉ seen → ∃ g ∈ dedupLower seen l, g.toLower = f.toLower := by
  induction l with
  | nil => intro seen f hf; simp at hf
  | cons a rest ih =>
    intro seen f hf hs
    by_cases ha : a.toLower ∈ seen
    · rw [dedupLower, if_pos ha]
      rcases List.mem_cons.mp hf with h | h
      · exact absurd (h ▸ hs) (fun hn => hn (h ▸ ha))
      · exact ih seen f h hs
    · rw [dedupLower, if_neg ha]
      rcases List.mem_cons.mp hf with h | h
      · exact ⟨a, List.mem_cons_self a _, by rw [h]⟩
      · by_cases he : f.toLower = a.toLower
        · exact ⟨a, List.mem_cons_self a _, he.symm⟩
        · obtain ⟨g, hg1, hg2⟩ := ih (a.toLower :: seen) f h
            (by intro hx; rcases List.mem_cons.mp hx with hx | hx
                · exact he hx
                · exact hs hx)
          exact ⟨g, List.mem_cons_of_mem a hg1, hg2⟩

/-- In a list whose entries have pairwise distinct lowercased names, a name
that occurs occurs exactly once (counting case-insensitively). -/
theorem countP_lower_eq_one (x : String) (l : List String)
    (hp : l.Pairwise (fun a b => a.toLower ≠ b.toLower)) :
    ∀ g ∈ l, g.toLower = x → l.countP (fun y => y.toLower == x) = 1 := by
  induction l with
  | nil => intro g hg; simp at hg
  | cons a rest ih =>
    intro g hg hgx
    rcases List.mem_cons.mp hg with h | h
    · have hax : (a.toLower == x) = true := beq_iff_eq.mpr (h ▸ hgx)
      have hz : rest.countP (fun y => y.toLower == x) = 0 := by
        rw [List.countP_eq_zero]
        intro y hy
        have := List.rel_of_pairwise_cons hp hy
        simp only [beq_iff_eq]
        rw [← hgx, h]
        exact fun he => this he.symm
      rw [List.countP_cons, hz, if_pos hax]
    · have hax : (a.toLower == x) = false := by
        have := List.rel_of_pairwise_cons hp h
        simp only [beq_eq_false_iff_ne, ne_eq]
        rw [← hgx]
        exact this
      rw [List.countP_cons, ih (List.Pairwise.of_cons hp) g h hgx, hax]
      simp

/-- C8: the video batch enumeration de-duplicates by case-insensitive name: the
processed list never contains two entries with the same lowercased name, and
any input file matched by some extension pattern is represented exactly once
(counting case-insensitively) — so of "cat.MP4" and "cat.mp4" exactly one
entry is processed. -/
theorem video_enumeration_dedup_unique (files : List String) :
    (videoFilesToProcess files).Pairwise (fun a b => a.toLower ≠ b.toLower) ∧
    ∀ f ∈ files, video_extensions.any (fun e => matchesExt f e) = true →
      (videoFilesToProcess files).countP (fun g => g.toLower == f.toLower) = 1 := by
  constructor
  · exact dedupLower_pairwise _ []
  · intro f hf hmatch
    obtain ⟨e, he, hme⟩ := List.any_eq_true.mp hmatch
    have hcand : f ∈ video_extensions.flatMap
        (fun e => files.filter (fun f => matchesExt f e)) :=
      List.mem_flatMap.mpr ⟨e, he, List.mem_filter.mpr ⟨hf, hme⟩⟩
    obtain ⟨g, hg1, hg2⟩ := dedupLower_covers _ [] f hcand (by simp)
    exact countP_lower_eq_one f.toLower (videoFilesToProcess files)
      (dedupLower_pairwise _ []) g hg1 hg2

/-- Witness for C8 at the spec's scenario: with both "cat.MP4" and "cat.mp4"
present, the name is processed exactly once. -/
theorem video_enumeration_dedup_unique_case :
    (videoFilesToProcess ["cat.MP4", "cat.mp4"]).Pairwise
      (fun a b => a.toLower ≠ b.toLower) ∧
    ∀ f ∈ (["cat.MP4", "cat.mp4"] : List String),
      video_extensions.any (fun e => matchesExt f e) = true →
      (videoFilesToProcess ["cat.MP4", "cat.mp4"]).countP
        (fun g => g.toLower == f.toLower) = 1 :=
  video_enumeration_dedup_unique ["cat.MP4", "cat.mp4"]
